import Mathlib

/-!
Verification of the cartographer dependency-graph engine
(`src/plugins/cartographer/scripts/dependency_graph.py`), shallowly
embedded in Lean.  Modules are strings, file paths are lists of path
segments (`Path.parts` relative to the scan root), and file contents are
strings; read failures are modelled by an `Option` content field.
-/

namespace Cartographer

/-- The characters Python's `\s` matches on ASCII text. -/
def isPyWs (c : Char) : Bool :=
  c = ' ' || c = '\t' || c = '\n' || c = '\r' || c = '\x0b' || c = '\x0c'

/-- Python's `\w` on ASCII text: letters, digits and underscore. -/
def isWordChar (c : Char) : Bool :=
  c.isAlpha || c.isDigit || c = '_'

/-- `endsWithL s suf`: `s` ends with `suf` (Python `str.endswith`). -/
def endsWithL (s suf : List Char) : Bool :=
  s.drop (s.length - suf.length) == suf

/-- Python `str.endswith` on strings. -/
def strEndsWith (s suf : String) : Bool :=
  endsWithL s.toList suf.toList

/-- Python `str.split(sep)` for a one-character separator. -/
def splitOnChar (sep : Char) : List Char → List (List Char)
  | [] => [[]]
  | c :: rest =>
    match splitOnChar sep rest with
    | [] => [[c]]
    | g :: gs => if c = sep then [] :: g :: gs else (c :: g) :: gs

/-- `known_module.split('/')[-1]`: the final `/`-separated segment. -/
def lastSeg (s : String) : String :=
  String.mk ((splitOnChar '/' s.toList).getLastD [])

/-- Python `str.replace('.', '/')` (a one-character pattern replaces
    every occurrence, i.e. acts characterwise). -/
def replaceDots (s : String) : String :=
  String.mk (s.toList.map fun c => if c = '.' then '/' else c)

/-- `normalize_module_name` (dependency_graph.py lines 21-30), acting on
    the segments of the path relative to the scan root
    (`rel_path.parts`, non-empty for a file under the root).
    For a segment ending in `.py` / `.rs`, `rsplit('.', 1)[0]` removes
    exactly the final three characters, since the final `.` of such a
    string is the third character from its end. -/
def normalize_module_name (parts0 : List String) : String :=
  let parts1 :=
    match parts0.getLast? with
    | some last =>
      if strEndsWith last ".py" || strEndsWith last ".rs" then
        parts0.dropLast ++ [String.mk (last.toList.take (last.toList.length - 3))]
      else parts0
    | none => parts0
  let parts2 :=
    match parts1.getLast? with
    | some last =>
      if last = "mod" || last = "index" || last = "__init__" || last = "main" then
        parts1.dropLast
      else parts1
    | none => parts1
  if parts2 = [] then "root" else String.intercalate "/" parts2

/-! ### Regex scanning

The extraction functions use `re.finditer`, which yields non-overlapping
matches in order of match position, resuming after the end of each
match.  `scanIter` models this as a character-by-character scan emitting
`(position, capture)` pairs.  An `anchored` pattern (`^...` with
`re.MULTILINE`) can match only at position 0 or just after a newline.
After a successful match consuming `k` characters, the next `k - 1`
characters are skipped (the `skip` counter), and the line-start flag is
recomputed from the characters actually traversed. -/

/-- Strip an expected literal from the front of the input. -/
def stripLit : List Char → List Char → Option (List Char)
  | [], l => some l
  | p :: ps, c :: cs => if c = p then stripLit ps cs else none
  | _ :: _, [] => none

/-- `\s+` with a following element that cannot match whitespace: the
    maximal (greedy) non-empty whitespace run.  Fails when the input does
    not start with whitespace. -/
def wsPlus (l : List Char) : Option (List Char) :=
  match l with
  | c :: cs => if isPyWs c then some (cs.dropWhile isPyWs) else none
  | [] => none

/-- A matcher consumes a prefix of the input and returns the capture
    group together with the remaining input. -/
def Matcher : Type := List Char → Option (String × List Char)

/-- The `finditer` driver.  `skip` counts characters still covered by the
    previous match, `pos` is the current position, `atStart` records
    whether `pos` is preceded by nothing or by a newline. -/
def scanIter (anchored : Bool) (step : Matcher) :
    Nat → Nat → Bool → List Char → List (Nat × String)
  | _, _, _, [] => []
  | skip + 1, pos, _, c :: rest =>
    scanIter anchored step skip (pos + 1) (c = '\n') rest
  | 0, pos, atStart, c :: rest =>
    if anchored && !atStart then
      scanIter anchored step 0 (pos + 1) (c = '\n') rest
    else
      match step (c :: rest) with
      | some (cap, rem) =>
        (pos, cap) ::
          scanIter anchored step ((rest.length + 1 - rem.length) - 1) (pos + 1)
            (c = '\n') rest
      | none => scanIter anchored step 0 (pos + 1) (c = '\n') rest

/-- Run a `finditer` scan over a content string from position 0. -/
def scanContent (anchored : Bool) (step : Matcher) (content : String) :
    List (Nat × String) :=
  scanIter anchored step 0 0 true content.toList

/-! ### Per-pattern matchers

Greedy quantifier runs followed by an element that cannot match any
character of the run need no backtracking, so `\s+` before a non-space
element and `\S+` / `\w+` / `[^'"]+` before a whitespace / non-word /
quote element are modelled by maximal runs.  Genuinely backtrackable
pieces (`(?:crate::)?` and `\.?\.?/?`) are modelled by trying the
engine's alternatives in its preference order. -/

/-- `^from\s+(\S+)\s+import` (dependency_graph.py line 36). -/
def pyFromStep : Matcher := fun l => do
  let r1 ← stripLit "from".toList l
  let r2 ← wsPlus r1
  let tok := r2.takeWhile (fun c => !isPyWs c)
  if tok.isEmpty then none
  else do
    let r3 ← wsPlus (r2.drop tok.length)
    let r4 ← stripLit "import".toList r3
    some (String.mk tok, r4)

/-- `^import\s+(\S+)` (dependency_graph.py line 38). -/
def pyImportStep : Matcher := fun l => do
  let r1 ← stripLit "import".toList l
  let r2 ← wsPlus r1
  let tok := r2.takeWhile (fun c => !isPyWs c)
  if tok.isEmpty then none else some (String.mk tok, r2.drop tok.length)

/-- `match.group(1).split(',')[0].split(' ')[0]`
    (dependency_graph.py line 39). -/
def pySplitImport (s : String) : String :=
  String.mk (((splitOnChar ' ' ((splitOnChar ',' s.toList).headD [])).headD []))

/-- `extract_imports_python` (dependency_graph.py lines 33-41): all
    `from`-matches in position order, then all `import`-matches in
    position order. -/
def extract_imports_python (content : String) : List String :=
  (scanContent true pyFromStep content).map (fun m => m.2) ++
    (scanContent true pyImportStep content).map (fun m => pySplitImport m.2)

/-- `^use\s+(?:crate::)?(\w+)` (dependency_graph.py line 47).  The
    engine first tries to consume the literal `crate::`; if no word
    character follows it backtracks and matches `\w+` without it. -/
def rustUseStep : Matcher := fun l => do
  let r1 ← stripLit "use".toList l
  let r2 ← wsPlus r1
  let noCrate : Option (String × List Char) :=
    let tok := r2.takeWhile isWordChar
    if tok.isEmpty then none else some (String.mk tok, r2.drop tok.length)
  match stripLit "crate::".toList r2 with
  | some r3 =>
    let tok := r3.takeWhile isWordChar
    if tok.isEmpty then noCrate else some (String.mk tok, r3.drop tok.length)
  | none => noCrate

/-- `^mod\s+(\w+);` (dependency_graph.py line 49). -/
def rustModStep : Matcher := fun l => do
  let r1 ← stripLit "mod".toList l
  let r2 ← wsPlus r1
  let tok := r2.takeWhile isWordChar
  if tok.isEmpty then none
  else do
    let r3 ← stripLit [';'] (r2.drop tok.length)
    some (String.mk tok, r3)

/-- `extract_imports_rust` (dependency_graph.py lines 44-51): all
    `use`-matches in position order, then all `mod`-matches. -/
def extract_imports_rust (content : String) : List String :=
  (scanContent true rustUseStep content).map (fun m => m.2) ++
    (scanContent true rustModStep content).map (fun m => m.2)

/-- A single or double quote (the character class `['\"]`). -/
def isQuote (c : Char) : Bool := c = '\'' || c = '"'

/-- `([^'\"]+)['\"]`: a non-empty maximal run of non-quote characters
    followed by a closing quote. -/
def jsPathTail (l : List Char) : Option (String × List Char) :=
  let cap := l.takeWhile (fun c => !isQuote c)
  if cap.isEmpty then none
  else
    match l.drop cap.length with
    | c :: rest => if isQuote c then some (String.mk cap, rest) else none
    | [] => none

/-- Try the consumption alternatives of `\.?\.?/?` in the engine's
    backtracking preference order, each followed by `tail`. -/
def tryDotSlash (tail : List Char → Option (String × List Char)) :
    List (List Char) → List Char → Option (String × List Char)
  | [], _ => none
  | p :: ps, l =>
    match stripLit p l with
    | some r =>
      match tail r with
      | some res => some res
      | none => tryDotSlash tail ps l
    | none => tryDotSlash tail ps l

/-- The distinct texts `\.?\.?/?` can consume, in backtracking order. -/
def dotSlashAlts : List (List Char) :=
  ["../", "..", "./", ".", "/", ""].map String.toList

/-- `from\s+['\"]\.?\.?/?([^'\"]+)['\"]` (dependency_graph.py line 57),
    not anchored. -/
def jsFromStep : Matcher := fun l => do
  let r1 ← stripLit "from".toList l
  let r2 ← wsPlus r1
  match r2 with
  | c :: r3 => if isQuote c then tryDotSlash jsPathTail dotSlashAlts r3 else none
  | [] => none

/-- `require\(['\"]\.?\.?/?([^'\"]+)['\"]\)` (dependency_graph.py
    line 61), not anchored. -/
def jsRequireStep : Matcher := fun l => do
  let r1 ← stripLit "require(".toList l
  match r1 with
  | c :: r2 =>
    if isQuote c then
      tryDotSlash
        (fun r => do
          let (cap, r3) ← jsPathTail r
          let r4 ← stripLit [')'] r3
          some (cap, r4))
        dotSlashAlts r2
    else none
  | [] => none

/-- Python `str.startswith` on strings. -/
def strStartsWith (s pre : String) : Bool :=
  s.toList.take pre.toList.length == pre.toList

/-- `extract_imports_js` (dependency_graph.py lines 54-65): the
    `from`-matches not starting with `@` or `node_modules`, then the
    `require`-matches not starting with `@`. -/
def extract_imports_js (content : String) : List String :=
  ((scanContent false jsFromStep content).map (fun m => m.2)).filter
      (fun p => !strStartsWith p "@" && !strStartsWith p "node_modules") ++
    ((scanContent false jsRequireStep content).map (fun m => m.2)).filter
      (fun p => !strStartsWith p "@")

/-- One step of the loop of `detect_circular_dependencies`
    (dependency_graph.py lines 129-131): processing edge `e` appends it
    when the reversed edge occurs in the edge list and the reversed edge
    has not been recorded yet. -/
def detectStep (edges : List (String × String)) (acc : List (String × String))
    (e : String × String) : List (String × String) :=
  if (e.2, e.1) ∈ edges ∧ (e.2, e.1) ∉ acc then acc ++ [e] else acc

/-- `detect_circular_dependencies` (dependency_graph.py lines 118-133),
    as a function of the edge list (the adjacency list built at lines
    122-126 is never used). -/
def detectCircular (edges : List (String × String)) : List (String × String) :=
  edges.foldl (detectStep edges) []

/-! ### Graph building -/

/-- A candidate source file: the segments of its path relative to the
    scan root (`rel_path.parts`), its lowercased extension
    (`file_path.suffix.lower()`, supplied with the path by the file
    enumerator), and its content (`none` when the `open`/`read` at
    lines 83-87 raises and the file is skipped). -/
structure SourceFile where
  parts : List String
  ext : String
  content : Option String

/-- `DependencyGraph` (dependency_graph.py lines 13-18).  The Python
    node set is modelled as a duplicate-free list in first-insertion
    order; a Python `set` iterates in an incidental, unspecified order,
    and no claim below depends on which particular order is used. -/
structure DependencyGraph where
  nodes : List String
  edges : List (String × String)
  circular : List (String × String)

/-- `graph.nodes.add m` on the list model of the node set. -/
def insertNode (nodes : List String) (n : String) : List String :=
  if n ∈ nodes then nodes else nodes ++ [n]

/-- Lines 73-77: the node set of the graph. -/
def buildNodes (files : List SourceFile) : List String :=
  files.foldl (fun acc f => insertNode acc (normalize_module_name f.parts)) []

/-- Lines 83-97: an unreadable file is skipped before extraction, and
    the extractor is chosen by the file's lowercased extension. -/
def extractFor (f : SourceFile) : List String :=
  match f.content with
  | none => []
  | some content =>
    if f.ext = ".py" then extract_imports_python content
    else if f.ext = ".rs" then extract_imports_rust content
    else if f.ext = ".js" ∨ f.ext = ".jsx" ∨ f.ext = ".ts" ∨ f.ext = ".tsx" then
      extract_imports_js content
    else []

/-- Line 107's per-node test:
    `known_module.endswith(imp_normalized) or
     imp_normalized.endswith(known_module.split('/')[-1])`. -/
def refMatches (imp_normalized : String) (known : String) : Bool :=
  strEndsWith known imp_normalized || strEndsWith imp_normalized (lastSeg known)

/-- Lines 106-110: scan the node set and stop at the first match. -/
def resolveRef (nodes : List String) (imp_normalized : String) : Option String :=
  nodes.find? (refMatches imp_normalized)

/-- Lines 100-110 for one raw reference.  Lines 102-103 split
    `imp.replace('.', '/')` on `'/'` and re-join with `'/'`, which is
    the identity, so the normalized reference is `imp.replace('.','/')`.
    An edge is appended only when the first matching node differs from
    the file's own module (line 108); the `break` at line 110 runs
    either way. -/
def edgesForImport (nodes : List String) (module_name : String) (imp : String) :
    List (String × String) :=
  match resolveRef nodes (replaceDots imp) with
  | some known => if module_name ≠ known then [(module_name, known)] else []
  | none => []

/-- Lines 80-110 for one file. -/
def edgesForFile (nodes : List String) (f : SourceFile) : List (String × String) :=
  (extractFor f).flatMap (edgesForImport nodes (normalize_module_name f.parts))

/-- `build_dependency_graph` (dependency_graph.py lines 68-115). -/
def build_dependency_graph (files : List SourceFile) : DependencyGraph :=
  let nodes := buildNodes files
  let edges := files.flatMap (edgesForFile nodes)
  { nodes := nodes, edges := edges, circular := detectCircular edges }

/-! ### Mermaid rendering -/

/-- `node.replace('"', "'")` (line 147). -/
def escapeLabel (s : String) : String :=
  String.mk (s.toList.map fun c => if c = '"' then '\'' else c)

/-- Lines 141-142: the truncated node list with its synthetic ids. -/
def mermaidNodeIds (g : DependencyGraph) (max_nodes : Nat) :
    List (String × String) :=
  (g.nodes.take max_nodes).enum.map (fun p => (p.2, "N" ++ toString p.1))

/-- Dict lookup in `node_ids`. -/
def idOf (node_ids : List (String × String)) (n : String) : Option String :=
  (node_ids.find? (fun p => p.1 = n)).map (fun p => p.2)

/-- One iteration of lines 152-157; `acc.1` holds the emitted edge
    lines, `acc.2` the `added_edges` set in insertion order. -/
def mermaidEdgeStep (node_ids : List (String × String))
    (acc : List String × List (String × String)) (e : String × String) :
    List String × List (String × String) :=
  match idOf node_ids e.1, idOf node_ids e.2 with
  | some i1, some i2 =>
    if e ∈ acc.2 then acc
    else (acc.1 ++ ["    " ++ i1 ++ " --> " ++ i2], acc.2 ++ [e])
  | _, _ => acc

/-- Lines 151-157: the edge-line fold. -/
def mermaidEdges (node_ids : List (String × String))
    (edges : List (String × String)) : List String × List (String × String) :=
  edges.foldl (mermaidEdgeStep node_ids) ([], [])

/-- `generate_mermaid` (lines 136-165) as the built list of lines; the
    Python function returns their `'\n'`-join. -/
def generate_mermaid_lines (g : DependencyGraph) (max_nodes : Nat) :
    List String :=
  let node_ids := mermaidNodeIds g max_nodes
  ["```mermaid", "graph TD"] ++
    node_ids.map (fun p => "    " ++ p.2 ++ "[\"" ++ escapeLabel p.1 ++ "\"]") ++
    (mermaidEdges node_ids g.edges).1 ++
    (g.circular.filter
        (fun e => (idOf node_ids e.1).isSome && (idOf node_ids e.2).isSome)).map
      (fun _ => "    linkStyle default stroke:#333") ++
    ["```"]

/-- `generate_mermaid`'s return value. -/
def generate_mermaid (g : DependencyGraph) (max_nodes : Nat) : String :=
  String.intercalate "\n" (generate_mermaid_lines g max_nodes)

/-! ### Connectivity reporting -/

/-- `d[k] = d.get(k, 0) + 1` on an insertion-ordered association list
    (the model of a Python dict with string keys). -/
def bumpKey (m : List (String × Nat)) (k : String) : List (String × Nat) :=
  if m.any (fun p => p.1 = k) then
    m.map (fun p => if p.1 = k then (p.1, p.2 + 1) else p)
  else m ++ [(k, 1)]

/-- Lines 198-202: the `incoming` dict of `generate_dependency_report`:
    every node seeded with 0, then one bump per edge target. -/
def incomingMap (g : DependencyGraph) : List (String × Nat) :=
  g.edges.foldl (fun acc e => bumpKey acc e.2) (g.nodes.map (fun n => (n, 0)))

/-- Lines 199-201: the `outgoing` dict. -/
def outgoingMap (g : DependencyGraph) : List (String × Nat) :=
  g.edges.foldl (fun acc e => bumpKey acc e.1) (g.nodes.map (fun n => (n, 0)))

/-- Dict lookup in a count map. -/
def getCount (m : List (String × Nat)) (k : String) : Option Nat :=
  (m.find? (fun p => p.1 = k)).map (fun p => p.2)

/-- Stable insertion into a descending-by-count list: the inserted
    entry (which originates earlier in the input than everything already
    inserted) goes before the first entry whose count is ≤ its own. -/
def insertDesc (p : String × Nat) : List (String × Nat) → List (String × Nat)
  | [] => [p]
  | q :: qs => if q.2 ≤ p.2 then p :: q :: qs else q :: insertDesc p qs

/-- `sorted(items, key=lambda x: -x[1])`: a stable descending sort by
    count (Python's `sorted` is stable, so any stable descending sort
    computes the same list). -/
def sortDesc : List (String × Nat) → List (String × Nat)
  | [] => []
  | p :: ps => insertDesc p (sortDesc ps)

/-- Lines 208-210 (and 215-217): the entries actually presented — the
    ten largest counts, zero-count entries dropped by the
    `if count > 0` guard inside the loop. -/
def topEntries (m : List (String × Nat)) : List (String × Nat) :=
  ((sortDesc m).take 10).filter (fun p => 0 < p.2)

/-! ### Lemmas about `detectCircular` -/

theorem detect_mem_mono (edges : List (String × String)) :
    ∀ (l acc : List (String × String)) (p : String × String), p ∈ acc →
      p ∈ List.foldl (detectStep edges) acc l := by
  intro l
  induction l with
  | nil => intro acc p hp; simpa using hp
  | cons e t ih =>
    intro acc p hp
    rw [List.foldl_cons]
    apply ih
    unfold detectStep
    split
    · exact List.mem_append_left _ hp
    · exact hp

theorem detect_sound (edges : List (String × String)) :
    ∀ (l acc : List (String × String)) (p : String × String),
      p ∈ List.foldl (detectStep edges) acc l →
      p ∈ acc ∨ (p ∈ l ∧ (p.2, p.1) ∈ edges) := by
  intro l
  induction l with
  | nil => intro acc p hp; left; simpa using hp
  | cons e t ih =>
    intro acc p hp
    rw [List.foldl_cons] at hp
    rcases ih _ _ hp with h | h
    · unfold detectStep at h
      split at h <;> rename_i hcond
      · rcases List.mem_append.1 h with h' | h'
        · exact Or.inl h'
        · right
          rcases List.mem_singleton.1 h' with rfl
          exact ⟨List.mem_cons_self _ _, hcond.1⟩
      · exact Or.inl h
    · exact Or.inr ⟨List.mem_cons_of_mem _ h.1, h.2⟩

theorem detect_complete (edges : List (String × String)) :
    ∀ (l acc : List (String × String)) (p : String × String),
      p ∈ l → (p.2, p.1) ∈ edges →
      p ∈ List.foldl (detectStep edges) acc l ∨
        (p.2, p.1) ∈ List.foldl (detectStep edges) acc l := by
  intro l
  induction l with
  | nil => intro acc p hp; simp at hp
  | cons e t ih =>
    intro acc p hp hrev
    rw [List.foldl_cons]
    rcases List.mem_cons.1 hp with rfl | hp'
    · by_cases hc : (p.2, p.1) ∈ edges ∧ (p.2, p.1) ∉ acc
      · left
        apply detect_mem_mono
        have : detectStep edges acc p = acc ++ [p] := by
          unfold detectStep; rw [if_pos hc]
        rw [this]
        exact List.mem_append_right _ (List.mem_singleton_self _)
      · right
        apply detect_mem_mono
        have : (p.2, p.1) ∈ acc := by
          by_contra hn
          exact hc ⟨hrev, hn⟩
        unfold detectStep
        split
        · exact List.mem_append_left _ this
        · exact this
    · exact ih _ _ hp' hrev

theorem detect_nodup (edges : List (String × String)) :
    ∀ (l acc : List (String × String)), l.Nodup → acc.Nodup →
      (∀ p ∈ acc, p ∉ l) → (List.foldl (detectStep edges) acc l).Nodup := by
  intro l
  induction l with
  | nil => intro acc _ ha _; simpa using ha
  | cons e t ih =>
    intro acc hl ha hdis
    rw [List.foldl_cons]
    rcases List.nodup_cons.1 hl with ⟨het, ht⟩
    have hea : e ∉ acc := fun h => hdis e h (List.mem_cons_self _ _)
    apply ih _ ht
    · unfold detectStep
      split
      · exact (List.nodup_append.2 ⟨ha, List.nodup_singleton _,
          by simpa [List.disjoint_singleton] using hea⟩)
      · exact ha
    · intro p hp
      unfold detectStep at hp
      have hpt : p ∈ acc ∨ p = e := by
        split at hp
        · rcases List.mem_append.1 hp with h | h
          · exact Or.inl h
          · exact Or.inr (List.mem_singleton.1 h)
        · exact Or.inl hp
      rcases hpt with h | rfl
      · exact fun hmem => hdis p h (List.mem_cons_of_mem _ hmem)
      · exact het

theorem detect_excl (edges : List (String × String)) :
    ∀ (l acc : List (String × String)) (A B : String), A ≠ B →
      ¬((A, B) ∈ acc ∧ (B, A) ∈ acc) →
      ¬((A, B) ∈ List.foldl (detectStep edges) acc l ∧
        (B, A) ∈ List.foldl (detectStep edges) acc l) := by
  intro l
  induction l with
  | nil => intro acc A B _ hinv h; exact hinv (by simpa using h)
  | cons e t ih =>
    intro acc A B hAB hinv
    rw [List.foldl_cons]
    apply ih _ _ _ hAB
    rintro ⟨h1, h2⟩
    unfold detectStep at h1 h2
    by_cases hcond : (e.2, e.1) ∈ edges ∧ (e.2, e.1) ∉ acc
    · rw [if_pos hcond] at h1 h2
      rcases List.mem_append.1 h1 with h1' | h1'
      · rcases List.mem_append.1 h2 with h2' | h2'
        · exact hinv ⟨h1', h2'⟩
        · rcases List.mem_singleton.1 h2' with rfl
          exact hcond.2 h1'
      · rcases List.mem_singleton.1 h1' with rfl
        rcases List.mem_append.1 h2 with h2' | h2'
        · exact hcond.2 h2'
        · rcases List.mem_singleton.1 h2' with he
          exact hAB (congrArg Prod.fst he.symm)
    · rw [if_neg hcond] at h1 h2
      exact hinv ⟨h1, h2⟩

/-! ### Claim C1 -/

/-- C1, counterexample: `detect_circular_dependencies` can record the
    same unordered pair twice when the edge list contains a repeated
    edge record, because the recording guard at line 130 only checks the
    reversed orientation against the accumulated list.  On edges
    [(a,b),(b,a),(a,b)] the pair (a,b) is recorded twice, refuting the
    claim that no pair is ever recorded more than once even when the
    edge list contains repeated edge records. -/
theorem C1_once_counterexample :
    detectCircular [("a", "b"), ("b", "a"), ("a", "b")] =
      [("a", "b"), ("a", "b")] ∧
    ¬(detectCircular [("a", "b"), ("b", "a"), ("a", "b")]).Nodup := by
  exact ⟨by decide, by decide⟩

/-- C1 (amended): on the two spec examples the output is exactly
    [(A,B)] and [] respectively; for every edge list the output consists
    exactly of the directly-reciprocal pairs (every recorded pair is an
    edge whose reverse is also an edge, and every edge with a reverse is
    recorded in one of its two orientations); and when the edge list
    has no repeated edge records, each unordered pair is recorded at
    most once (the output has no duplicates and never holds both
    orientations of a pair of distinct modules). -/
theorem C1_detect_circular_amended (edges : List (String × String))
    (h : edges.Nodup) :
    detectCircular [("A", "B"), ("B", "A"), ("A", "C")] = [("A", "B")] ∧
    detectCircular [("A", "B"), ("B", "C"), ("C", "A")] = [] ∧
    (∀ p ∈ detectCircular edges, p ∈ edges ∧ (p.2, p.1) ∈ edges) ∧
    (∀ p ∈ edges, (p.2, p.1) ∈ edges →
      p ∈ detectCircular edges ∨ (p.2, p.1) ∈ detectCircular edges) ∧
    (detectCircular edges).Nodup ∧
    (∀ A B, A ≠ B →
      ¬((A, B) ∈ detectCircular edges ∧ (B, A) ∈ detectCircular edges)) := by
  refine ⟨by decide, by decide, ?_, ?_, ?_, ?_⟩
  · intro p hp
    rcases detect_sound edges edges [] p hp with h' | h'
    · simp at h'
    · exact ⟨h'.1, h'.2⟩
  · intro p hp hrev
    exact detect_complete edges edges [] p hp hrev
  · exact detect_nodup edges edges [] h (by simp) (by simp)
  · intro A B hAB
    exact detect_excl edges edges [] A B hAB (by simp)

/-- Witness for C1: the amended theorem applied to the concrete
    duplicate-free edge list [(A,B),(B,A)] at the reciprocal pair. -/
theorem C1_detect_circular_amended_witness :
    ("A", "B") ∈ detectCircular [(("A" : String), ("B" : String)), ("B", "A")] ∨
    ("B", "A") ∈ detectCircular [(("A" : String), ("B" : String)), ("B", "A")] :=
  (C1_detect_circular_amended [("A", "B"), ("B", "A")] (by decide)).2.2.2.1
    ("A", "B") (by decide) (by decide)

/-! ### Claim C10 -/

/-- C10: for distinct modules A and B, the circular-pair list never
    contains both orientations (A,B) and (B,A): whichever orientation
    is reached first is recorded, and the guard at line 130 then
    rejects the other. -/
theorem C10_no_both_orientations (edges : List (String × String)) (A B : String)
    (hAB : A ≠ B) (h : (A, B) ∈ detectCircular edges) :
    (B, A) ∉ detectCircular edges := by
  intro h2
  exact detect_excl edges edges [] A B hAB (by simp) ⟨h, h2⟩

/-- Witness for C10 at the concrete edge list [(a,b),(b,a)], where
    (a,b) is recorded and (b,a) is therefore excluded. -/
theorem C10_no_both_orientations_witness :
    ("b", "a") ∉ detectCircular [(("a" : String), "b"), ("b", "a")] :=
  C10_no_both_orientations _ "a" "b" (by decide) (by decide)

/-! ### Claim C2 -/

/-- C2, counterexample: `normalize_module_name` strips an extension only
    when the final segment ends in `.py` or `.rs` (line 26), so a
    TypeScript index file keeps its extension and does not resolve to
    its parent directory: identify('src/utils/index.ts') is
    'src/utils/index.ts', not 'src/utils'. -/
theorem C2_index_ts_counterexample :
    normalize_module_name ["src", "utils", "index.ts"] = "src/utils/index.ts" ∧
    normalize_module_name ["src", "utils", "index.ts"] ≠ "src/utils" := by
  exact ⟨by decide, by decide⟩

/-- C2 (amended): the resolver strips the extension of the final
    segment exactly when that segment ends in `.py` or `.rs`; it then
    drops the segment entirely when the stripped segment equals one of
    mod, index, `__init__`, main, joins the remaining segments with '/'
    and falls back to the sentinel 'root' when nothing remains.  A final
    segment with any other extension — in particular `.ts` or `.js` —
    is kept verbatim, so 'src/utils/index.ts' resolves to
    'src/utils/index.ts', not to its parent directory. -/
theorem C2_normalize_amended (ps : List String) (h : ps ≠ []) :
    (∀ s : String, strEndsWith s ".py" = true ∨ strEndsWith s ".rs" = true →
      normalize_module_name (ps ++ [s]) =
        (if String.mk (s.toList.take (s.toList.length - 3)) = "mod" ∨
            String.mk (s.toList.take (s.toList.length - 3)) = "index" ∨
            String.mk (s.toList.take (s.toList.length - 3)) = "__init__" ∨
            String.mk (s.toList.take (s.toList.length - 3)) = "main" then
          String.intercalate "/" ps
        else
          String.intercalate "/"
            (ps ++ [String.mk (s.toList.take (s.toList.length - 3))]))) ∧
    (∀ s : String, strEndsWith s ".py" = false → strEndsWith s ".rs" = false →
      s ≠ "mod" → s ≠ "index" → s ≠ "__init__" → s ≠ "main" →
      normalize_module_name (ps ++ [s]) =
        String.intercalate "/" (ps ++ [s])) ∧
    normalize_module_name (ps ++ ["index.ts"]) =
      String.intercalate "/" (ps ++ ["index.ts"]) ∧
    normalize_module_name ["mod.rs"] = "root" ∧
    normalize_module_name ["index.py"] = "root" ∧
    normalize_module_name ["__init__.py"] = "root" ∧
    normalize_module_name ["main.py"] = "root" := by
  have hstrip : ∀ s : String,
      strEndsWith s ".py" = true ∨ strEndsWith s ".rs" = true →
      normalize_module_name (ps ++ [s]) =
        (if String.mk (s.toList.take (s.toList.length - 3)) = "mod" ∨
            String.mk (s.toList.take (s.toList.length - 3)) = "index" ∨
            String.mk (s.toList.take (s.toList.length - 3)) = "__init__" ∨
            String.mk (s.toList.take (s.toList.length - 3)) = "main" then
          String.intercalate "/" ps
        else
          String.intercalate "/"
            (ps ++ [String.mk (s.toList.take (s.toList.length - 3))])) := by
    intro s hend
    have hcond : (strEndsWith s ".py" || strEndsWith s ".rs") = true := by
      rcases hend with he | he <;> simp [he]
    set t := String.mk (s.toList.take (s.toList.length - 3)) with ht
    simp only [normalize_module_name, List.getLast?_concat, List.dropLast_concat,
      hcond, if_true, ← ht]
    by_cases hidx : t = "mod" ∨ t = "index" ∨ t = "__init__" ∨ t = "main"
    · have hb : (t = "mod" || t = "index" || t = "__init__" || t = "main") = true := by
        rcases hidx with h' | h' | h' | h' <;> simp [h']
      simp only [List.getLast?_concat, List.dropLast_concat, hb, if_true,
        if_pos hidx]
      rw [if_neg h]
    · have hb : (t = "mod" || t = "index" || t = "__init__" || t = "main") =
          false := by
        push_neg at hidx
        simp [hidx.1, hidx.2.1, hidx.2.2.1, hidx.2.2.2]
      simp only [List.getLast?_concat, List.dropLast_concat, hb,
        Bool.false_eq_true, if_false, if_neg hidx]
      simp [h]
  have hkeep : ∀ s : String,
      strEndsWith s ".py" = false → strEndsWith s ".rs" = false →
      s ≠ "mod" → s ≠ "index" → s ≠ "__init__" → s ≠ "main" →
      normalize_module_name (ps ++ [s]) =
        String.intercalate "/" (ps ++ [s]) := by
    intro s h1 h2 h3 h4 h5 h6
    have hcond : (strEndsWith s ".py" || strEndsWith s ".rs") = false := by
      simp [h1, h2]
    have hb : (s = "mod" || s = "index" || s = "__init__" || s = "main") =
        false := by
      simp [h3, h4, h5, h6]
    simp only [normalize_module_name, List.getLast?_concat, hcond,
      Bool.false_eq_true, if_false, hb]
    simp [h]
  refine ⟨hstrip, hkeep, ?_, by decide, by decide, by decide, by decide⟩
  exact hkeep "index.ts" (by decide) (by decide) (by decide) (by decide)
    (by decide) (by decide)

/-- Witness for C2: the amended theorem applied at ps = [src, utils]
    with final segments index.py (stripped and dropped) and index.ts
    (kept verbatim). -/
theorem C2_normalize_amended_witness :
    normalize_module_name ["src", "utils", "index.py"] = "src/utils" ∧
    normalize_module_name ["src", "utils", "index.ts"] = "src/utils/index.ts" := by
  have h := C2_normalize_amended ["src", "utils"] (by decide)
  exact ⟨(h.1 "index.py" (Or.inl (by decide))).trans (by decide),
    (h.2.2.1).trans (by decide)⟩

/-! ### Claims C3 and C6: the graph builder -/

theorem edgesForImport_ne (nodes : List String) (m imp : String) :
    ∀ e ∈ edgesForImport nodes m imp, e.1 ≠ e.2 := by
  intro e he
  unfold edgesForImport at he
  rcases hr : resolveRef nodes (replaceDots imp) with _ | known <;> rw [hr] at he
  · simp at he
  · by_cases hmk : m ≠ known
    · simp [hmk] at he
      subst he
      exact hmk
    · simp [hmk] at he

/-- C3: every edge of a built dependency graph has distinct source and
    target: line 108 appends an edge only when the resolved node
    differs from the file's own module. -/
theorem C3_no_self_edges (files : List SourceFile) (e : String × String)
    (h : e ∈ (build_dependency_graph files).edges) : e.1 ≠ e.2 := by
  simp only [build_dependency_graph, List.mem_flatMap] at h
  obtain ⟨f, _, hf⟩ := h
  unfold edgesForFile at hf
  simp only [List.mem_flatMap] at hf
  obtain ⟨imp, _, hi⟩ := hf
  exact edgesForImport_ne _ _ _ e hi

/-- Witness for C3: a built graph with an actual edge, whose endpoints
    the theorem shows distinct. -/
theorem C3_no_self_edges_witness :
    ("a", "b") ∈ (build_dependency_graph
      [⟨["a.py"], ".py", some "import b"⟩, ⟨["b.py"], ".py", some ""⟩]).edges ∧
    ("a" : String) ≠ "b" := by
  refine ⟨by decide, ?_⟩
  exact C3_no_self_edges
    [⟨["a.py"], ".py", some "import b"⟩, ⟨["b.py"], ".py", some ""⟩]
    ("a", "b") (by decide)

theorem insertNode_mem_self (nodes : List String) (n : String) :
    n ∈ insertNode nodes n := by
  unfold insertNode
  split
  · assumption
  · exact List.mem_append_right _ (List.mem_singleton_self _)

theorem insertNode_mem_mono (nodes : List String) (n m : String)
    (h : m ∈ nodes) : m ∈ insertNode nodes n := by
  unfold insertNode
  split
  · exact h
  · exact List.mem_append_left _ h

theorem buildNodes_fold_mono :
    ∀ (l : List SourceFile) (acc : List String) (m : String), m ∈ acc →
      m ∈ List.foldl
        (fun acc f => insertNode acc (normalize_module_name f.parts)) acc l := by
  intro l
  induction l with
  | nil => intro acc m hm; simpa using hm
  | cons f t ih =>
    intro acc m hm
    rw [List.foldl_cons]
    exact ih _ m (insertNode_mem_mono _ _ _ hm)

theorem mem_buildNodes_aux :
    ∀ (l : List SourceFile) (acc : List String) (f : SourceFile), f ∈ l →
      normalize_module_name f.parts ∈ List.foldl
        (fun acc f => insertNode acc (normalize_module_name f.parts)) acc l := by
  intro l
  induction l with
  | nil => intro acc f hf; simp at hf
  | cons g t ih =>
    intro acc f hf
    rw [List.foldl_cons]
    rcases List.mem_cons.1 hf with rfl | hf'
    · exact buildNodes_fold_mono t _ _ (insertNode_mem_self _ _)
    · exact ih _ f hf'

theorem mem_buildNodes (files : List SourceFile) (f : SourceFile)
    (h : f ∈ files) : normalize_module_name f.parts ∈ buildNodes files :=
  mem_buildNodes_aux files [] f h

/-- C6: an unreadable file contributes zero edges — the edge list of the
    built graph equals the flat-map that skips unreadable files
    entirely — while its module identifier (derived from the path
    alone) still enters the node set; the build is a total function of
    the file list, so it cannot abort. -/
theorem C6_unreadable_file (files : List SourceFile) (f : SourceFile)
    (hf : f ∈ files) (hc : f.content = none) :
    normalize_module_name f.parts ∈ (build_dependency_graph files).nodes ∧
    (∀ nodes, edgesForFile nodes f = []) ∧
    (build_dependency_graph files).edges =
      files.flatMap (fun g =>
        if g.content = none then []
        else edgesForFile (buildNodes files) g) := by
  refine ⟨?_, ?_, ?_⟩
  · simpa [build_dependency_graph] using mem_buildNodes files f hf
  · intro nodes
    unfold edgesForFile extractFor
    rw [hc]
    simp
  · simp only [build_dependency_graph]
    congr 1
    funext g
    by_cases hg : g.content = none
    · rw [if_pos hg]
      unfold edgesForFile extractFor
      rw [hg]
      simp
    · rw [if_neg hg]

/-- Witness for C6: a two-file build where the first file is
    unreadable; its module still appears among the nodes and it
    contributes no edges. -/
theorem C6_unreadable_file_witness :
    normalize_module_name ["u.py"] ∈
      (build_dependency_graph [⟨["u.py"], ".py", none⟩,
        ⟨["v.py"], ".py", some "import u"⟩]).nodes ∧
    edgesForFile ["u", "v"] ⟨["u.py"], ".py", none⟩ = [] := by
  have h := C6_unreadable_file
    [⟨["u.py"], ".py", none⟩, ⟨["v.py"], ".py", some "import u"⟩]
    ⟨["u.py"], ".py", none⟩ (List.mem_cons_self _ _) rfl
  exact ⟨h.1, h.2.1 ["u", "v"]⟩

/-! ### Claim C9 -/

/-- C9: reference resolution stops at the first node of the node set's
    iteration order that satisfies the suffix heuristic; when that first
    match is the referencing file's own module, the reference produces
    no edge at all and no later node is consulted — concretely, for
    node order [a, b/a] and reference a from module a, the later node
    b/a also satisfies the heuristic, yet no edge is produced. -/
theorem C9_first_match_self :
    (∀ (r n : String) (rest : List String), refMatches r n = true →
      resolveRef (n :: rest) r = some n) ∧
    (∀ (nodes : List String) (m imp : String),
      resolveRef nodes (replaceDots imp) = some m →
      edgesForImport nodes m imp = []) ∧
    (resolveRef ["a", "b/a"] (replaceDots "a") = some "a" ∧
     refMatches (replaceDots "a") "b/a" = true ∧
     edgesForImport ["a", "b/a"] "a" "a" = []) := by
  refine ⟨?_, ?_, by decide, by decide, by decide⟩
  · intro r n rest h
    unfold resolveRef
    exact List.find?_cons_of_pos _ h
  · intro nodes m imp h
    unfold edgesForImport
    rw [h]
    simp

/-- Witness for C9: the theorem applied at the one-node set [a] with
    the self-resolving reference a. -/
theorem C9_first_match_self_witness :
    edgesForImport ["a"] "a" "a" = [] :=
  C9_first_match_self.2.1 ["a"] "a" "a" (by decide)

/-! ### Claim C5 -/

/-- C5, counterexample: the `require` pass (lines 61-64) filters only
    paths starting with '@', not with 'node_modules', so
    require("node_modules/foo") contributes the raw reference
    node_modules/foo instead of being excluded. -/
theorem C5_require_counterexample :
    extract_imports_js "require(\"node_modules/foo\")" = ["node_modules/foo"] ∧
    extract_imports_js "require(\"node_modules/foo\")" ≠ [] := by
  exact ⟨by decide, by decide⟩

/-- C5 (amended): captured paths starting with '@' are excluded in both
    capture forms (import-from and require); paths starting with
    'node_modules' are excluded only in the import-from form; there is
    no separate bare-import capture form; in particular an import-from
    of node_modules/foo contributes nothing while
    require("node_modules/foo") contributes node_modules/foo. -/
theorem C5_js_exclusion_amended (content : String) :
    (extract_imports_js content =
      ((scanContent false jsFromStep content).map (fun m => m.2)).filter
          (fun p => !strStartsWith p "@" && !strStartsWith p "node_modules") ++
        ((scanContent false jsRequireStep content).map (fun m => m.2)).filter
          (fun p => !strStartsWith p "@")) ∧
    (∀ p ∈ extract_imports_js content, strStartsWith p "@" = false) ∧
    (∀ p ∈ ((scanContent false jsFromStep content).map (fun m => m.2)).filter
        (fun p => !strStartsWith p "@" && !strStartsWith p "node_modules"),
      strStartsWith p "node_modules" = false) ∧
    extract_imports_js "import x from \"node_modules/foo\"" = [] := by
  refine ⟨rfl, ?_, ?_, by decide⟩
  · intro p hp
    unfold extract_imports_js at hp
    rcases List.mem_append.1 hp with h | h
    · have h2 := (List.mem_filter.1 h).2
      simp only [Bool.and_eq_true, Bool.not_eq_true'] at h2
      exact h2.1
    · have h2 := (List.mem_filter.1 h).2
      simp only [Bool.not_eq_true'] at h2
      exact h2
  · intro p hp
    have h2 := (List.mem_filter.1 hp).2
    simp only [Bool.and_eq_true, Bool.not_eq_true'] at h2
    exact h2.2

/-- Witness for C5: the amended theorem applied at a concrete content
    whose extracted reference list is nonempty. -/
theorem C5_js_exclusion_amended_witness :
    strStartsWith "foo" "@" = false :=
  (C5_js_exclusion_amended "require(\"foo\")").2.1 "foo" (by decide)

/-! ### Claim C4 -/

theorem scanIter_nil (anchored : Bool) (step : Matcher) (skip pos : Nat)
    (b : Bool) : scanIter anchored step skip pos b [] = [] := by
  cases skip <;> rfl

theorem scanIter_succ (anchored : Bool) (step : Matcher) (skip pos : Nat)
    (b : Bool) (c : Char) (rest : List Char) :
    scanIter anchored step (skip + 1) pos b (c :: rest) =
      scanIter anchored step skip (pos + 1) (c = '\n') rest := rfl

theorem scanIter_zero (anchored : Bool) (step : Matcher) (pos : Nat)
    (b : Bool) (c : Char) (rest : List Char) :
    scanIter anchored step 0 pos b (c :: rest) =
      (if anchored && !b then
        scanIter anchored step 0 (pos + 1) (c = '\n') rest
      else
        match step (c :: rest) with
        | some (cap, rem) =>
          (pos, cap) ::
            scanIter anchored step ((rest.length + 1 - rem.length) - 1) (pos + 1)
              (c = '\n') rest
        | none => scanIter anchored step 0 (pos + 1) (c = '\n') rest) := rfl

/-- Every match emitted by the scanner lies at or after the scan
    position. -/
theorem scanIter_pos_le (anchored : Bool) (step : Matcher) :
    ∀ (l : List Char) (skip pos : Nat) (b : Bool) (q : Nat × String),
      q ∈ scanIter anchored step skip pos b l → pos ≤ q.1 := by
  intro l
  induction l with
  | nil =>
    intro skip pos b q hq
    rw [scanIter_nil] at hq
    simp at hq
  | cons c rest ih =>
    intro skip pos b q hq
    rcases skip with _ | skip'
    · rw [scanIter_zero] at hq
      split at hq
      · exact le_trans (Nat.le_succ pos) (ih 0 (pos + 1) _ q hq)
      · split at hq
        · rcases List.mem_cons.1 hq with rfl | hq'
          · exact Nat.le_refl pos
          · exact le_trans (Nat.le_succ pos) (ih _ _ _ q hq')
        · exact le_trans (Nat.le_succ pos) (ih _ _ _ q hq)
    · rw [scanIter_succ] at hq
      exact le_trans (Nat.le_succ pos) (ih _ _ _ q hq)

/-- The scanner emits matches in strictly increasing position order. -/
theorem scanIter_chain (anchored : Bool) (step : Matcher) :
    ∀ (l : List Char) (skip pos : Nat) (b : Bool),
      List.Chain' (· < ·)
        ((scanIter anchored step skip pos b l).map Prod.fst) := by
  intro l
  induction l with
  | nil =>
    intro skip pos b
    rw [scanIter_nil]
    simp
  | cons c rest ih =>
    intro skip pos b
    rcases skip with _ | skip'
    · rw [scanIter_zero]
      split
      · exact ih _ _ _
      · split
        · rw [List.map_cons, List.chain'_cons']
          refine ⟨?_, ih _ _ _⟩
          intro y hy
          have hmem := List.mem_of_mem_head? hy
          rcases List.mem_map.1 hmem with ⟨q, hq, rfl⟩
          have := scanIter_pos_le anchored step rest _ _ _ q hq
          omega
        · exact ih _ _ _
    · rw [scanIter_succ]
      exact ih _ _ _

/-- C4, counterexample: extraction runs the `from` pass before the
    `import` pass, so for content whose plain import (match position 0)
    precedes its from-import (match position 9) the extracted sequence
    is [b, a], with a emitted after b — not ordered by first-occurrence
    position across constructs. -/
theorem C4_order_counterexample :
    extract_imports_python "import a\nfrom b import c" = ["b", "a"] ∧
    scanContent true pyImportStep "import a\nfrom b import c" = [(0, "a")] ∧
    scanContent true pyFromStep "import a\nfrom b import c" = [(9, "b")] := by
  exact ⟨by decide, by decide, by decide⟩

/-- C4 (amended): within each extraction pass the matches are emitted
    in strictly increasing order of match position, and each
    extractor's output is the concatenation of its passes —
    from-imports then plain imports for Python, use then mod for Rust,
    import-from then require for JavaScript — so a construct of the
    second pass occurring earlier in the text than one of the first
    pass is nevertheless emitted after it. -/
theorem C4_pass_order_amended (content : String) :
    (extract_imports_python content =
      (scanContent true pyFromStep content).map (fun m => m.2) ++
        (scanContent true pyImportStep content).map
          (fun m => pySplitImport m.2)) ∧
    (extract_imports_rust content =
      (scanContent true rustUseStep content).map (fun m => m.2) ++
        (scanContent true rustModStep content).map (fun m => m.2)) ∧
    (extract_imports_js content =
      ((scanContent false jsFromStep content).map (fun m => m.2)).filter
          (fun p => !strStartsWith p "@" && !strStartsWith p "node_modules") ++
        ((scanContent false jsRequireStep content).map (fun m => m.2)).filter
          (fun p => !strStartsWith p "@")) ∧
    List.Chain' (· < ·) ((scanContent true pyFromStep content).map Prod.fst) ∧
    List.Chain' (· < ·) ((scanContent true pyImportStep content).map Prod.fst) ∧
    List.Chain' (· < ·) ((scanContent true rustUseStep content).map Prod.fst) ∧
    List.Chain' (· < ·) ((scanContent true rustModStep content).map Prod.fst) ∧
    List.Chain' (· < ·) ((scanContent false jsFromStep content).map Prod.fst) ∧
    List.Chain' (· < ·)
      ((scanContent false jsRequireStep content).map Prod.fst) :=
  ⟨rfl, rfl, rfl,
    scanIter_chain true pyFromStep content.toList 0 0 true,
    scanIter_chain true pyImportStep content.toList 0 0 true,
    scanIter_chain true rustUseStep content.toList 0 0 true,
    scanIter_chain true rustModStep content.toList 0 0 true,
    scanIter_chain false jsFromStep content.toList 0 0 true,
    scanIter_chain false jsRequireStep content.toList 0 0 true⟩

/-- Witness for C4: the amended theorem applied at a concrete content,
    projecting the position-ordering of the Python from-pass. -/
theorem C4_pass_order_amended_witness :
    List.Chain' (· < ·)
      ((scanContent true pyFromStep "from b import c").map Prod.fst) :=
  (C4_pass_order_amended "from b import c").2.2.2.1

/-! ### Claim C7 -/

theorem bumpKey_upd_fst (k : String) (p : String × Nat) :
    ((if p.1 = k then (p.1, p.2 + 1) else p) : String × Nat).1 = p.1 := by
  split <;> rfl

theorem find?_key_map_upd (k k' : String) :
    ∀ m : List (String × Nat),
      (m.map (fun p => if p.1 = k then (p.1, p.2 + 1) else p)).find?
          (fun p => p.1 = k') =
        (m.find? (fun p => p.1 = k')).map
          (fun p => if p.1 = k then (p.1, p.2 + 1) else p) := by
  intro m
  induction m with
  | nil => rfl
  | cons p m' ih =>
    by_cases hk : p.1 = k'
    · have h1 : ((if p.1 = k then (p.1, p.2 + 1) else p).1 = k') := by
        rw [bumpKey_upd_fst]; exact hk
      rw [List.map_cons, List.find?_cons_of_pos _ (by simp [h1]),
        List.find?_cons_of_pos _ (by simp [hk])]
      rfl
    · have h1 : ¬((if p.1 = k then (p.1, p.2 + 1) else p).1 = k') := by
        rw [bumpKey_upd_fst]; exact hk
      rw [List.map_cons, List.find?_cons_of_neg _ (by simp [h1]),
        List.find?_cons_of_neg _ (by simp [hk])]
      exact ih

theorem getCount_bumpKey_self (m : List (String × Nat)) (k : String) :
    getCount (bumpKey m k) k = some ((getCount m k).getD 0 + 1) := by
  unfold bumpKey getCount
  by_cases hany : m.any (fun p => p.1 = k) = true
  · rw [if_pos hany, find?_key_map_upd]
    have hex : ∃ q, m.find? (fun p => p.1 = k) = some q := by
      rw [← Option.isSome_iff_exists, List.find?_isSome]
      rcases List.any_eq_true.1 hany with ⟨x, hx, hpx⟩
      exact ⟨x, hx, hpx⟩
    rcases hex with ⟨q, hq⟩
    rw [hq]
    have hqk : q.1 = k := by simpa using List.find?_some hq
    simp [hqk]
  · rw [if_neg hany, List.find?_append]
    have hnone : m.find? (fun p => p.1 = k) = none := by
      rw [List.find?_eq_none]
      intro x hx hpx
      exact hany (List.any_eq_true.2 ⟨x, hx, hpx⟩)
    rw [hnone]
    simp [List.find?]

theorem getCount_bumpKey_ne (m : List (String × Nat)) (k k' : String)
    (hne : k' ≠ k) : getCount (bumpKey m k) k' = getCount m k' := by
  unfold bumpKey getCount
  by_cases hany : m.any (fun p => p.1 = k) = true
  · rw [if_pos hany, find?_key_map_upd]
    cases hq : m.find? (fun p => p.1 = k') with
    | none => rfl
    | some q =>
      have hqk : q.1 = k' := by simpa using List.find?_some hq
      have hid : (if q.1 = k then (q.1, q.2 + 1) else q) = q := by
        rw [if_neg]
        rw [hqk]
        exact hne
      simp [hid]
  · rw [if_neg hany, List.find?_append]
    cases hq : m.find? (fun p => p.1 = k') with
    | some q => simp
    | none =>
      have hlast : ([((k : String), 1)].find? (fun p => p.1 = k')) = none := by
        rw [List.find?_eq_none]
        intro x hx
        rcases List.mem_singleton.1 hx with rfl
        simpa using fun h => hne h.symm
      simp [hlast]

theorem getCount_fold_bump (sel : String × String → String) :
    ∀ (l : List (String × String)) (acc : List (String × Nat)) (k : String)
      (v : Nat), getCount acc k = some v →
      getCount (l.foldl (fun acc e => bumpKey acc (sel e)) acc) k =
        some (v + (l.filter (fun e => sel e = k)).length) := by
  intro l
  induction l with
  | nil => intro acc k v hv; simpa using hv
  | cons e t ih =>
    intro acc k v hv
    rw [List.foldl_cons]
    by_cases hek : sel e = k
    · have h1 : getCount (bumpKey acc (sel e)) k = some (v + 1) := by
        rw [hek, getCount_bumpKey_self, hv]
        rfl
      rw [ih _ k (v + 1) h1, List.filter_cons, if_pos (by simp [hek])]
      simp only [List.length_cons]
      congr 1
      omega
    · have h1 : getCount (bumpKey acc (sel e)) k = some v := by
        rw [getCount_bumpKey_ne _ _ _ (fun h => hek h.symm)]
        exact hv
      rw [ih _ k v h1, List.filter_cons, if_neg (by simp [hek])]

theorem getCount_seed (nodes : List String) (n : String) (h : n ∈ nodes) :
    getCount (nodes.map (fun x => (x, 0))) n = some 0 := by
  induction nodes with
  | nil => simp at h
  | cons x t ih =>
    by_cases hx : x = n
    · subst hx
      unfold getCount
      rw [List.map_cons, List.find?_cons_of_pos _ (by simp)]
      rfl
    · unfold getCount at ih ⊢
      rw [List.map_cons, List.find?_cons_of_neg _ (by simp [hx])]
      rcases List.mem_cons.1 h with rfl | h'
      · exact absurd rfl hx
      · exact ih h'

/-- C7: for a graph whose node set is duplicate-free (the list models a
    Python set), the connectivity maps carry every node with
    incoming[M] = the number of edges targeting M and outgoing[M] = the
    number of edges leaving M (0 when none); zero-count entries are
    excluded from the top-ten presentation; and the spec's concrete
    example produces exactly the stated six counts. -/
theorem C7_connectivity (g : DependencyGraph) (h : g.nodes.Nodup) :
    (∀ n ∈ g.nodes,
      getCount (incomingMap g) n =
        some ((g.edges.filter (fun e => e.2 = n)).length) ∧
      getCount (outgoingMap g) n =
        some ((g.edges.filter (fun e => e.1 = n)).length)) ∧
    (∀ m : List (String × Nat), ∀ p ∈ topEntries m, 0 < p.2) ∧
    incomingMap ⟨["A", "B", "C"], [("A", "B"), ("A", "C"), ("B", "C")], []⟩ =
      [("A", 0), ("B", 1), ("C", 2)] ∧
    outgoingMap ⟨["A", "B", "C"], [("A", "B"), ("A", "C"), ("B", "C")], []⟩ =
      [("A", 2), ("B", 1), ("C", 0)] := by
  refine ⟨?_, ?_, by decide, by decide⟩
  · intro n hn
    constructor
    · have := getCount_fold_bump (fun e => e.2) g.edges
        (g.nodes.map (fun x => (x, 0))) n 0 (getCount_seed g.nodes n hn)
      simpa [incomingMap] using this
    · have := getCount_fold_bump (fun e => e.1) g.edges
        (g.nodes.map (fun x => (x, 0))) n 0 (getCount_seed g.nodes n hn)
      simpa [outgoingMap] using this
  · intro m p hp
    have h2 := (List.mem_filter.1 hp).2
    simpa using h2

/-- Witness for C7: the theorem applied to the spec's concrete
    three-node graph at node C. -/
theorem C7_connectivity_witness :
    getCount (incomingMap
        ⟨["A", "B", "C"], [("A", "B"), ("A", "C"), ("B", "C")], []⟩) "C" =
      some (([(("A" : String), ("B" : String)), ("A", "C"), ("B", "C")].filter
        (fun e => e.2 = "C")).length) :=
  ((C7_connectivity ⟨["A", "B", "C"], [("A", "B"), ("A", "C"), ("B", "C")], []⟩
    (by decide)).1 "C" (by decide)).1

/-! ### Claim C8 -/

theorem mermaidNodeIds_length (g : DependencyGraph) (max_nodes : Nat) :
    (mermaidNodeIds g max_nodes).length = min max_nodes g.nodes.length := by
  unfold mermaidNodeIds
  rw [List.length_map, List.enum_length, List.length_take]

theorem isSome_omap {α β : Type} (f : α → β) (o : Option α) :
    (o.map f).isSome = o.isSome := by
  cases o <;> rfl

theorem idOf_isSome (g : DependencyGraph) (max_nodes : Nat) (x : String) :
    (idOf (mermaidNodeIds g max_nodes) x).isSome = true ↔
      x ∈ g.nodes.take max_nodes := by
  unfold idOf mermaidNodeIds
  rw [isSome_omap, List.find?_isSome]
  constructor
  · rintro ⟨p, hp, hpx⟩
    rcases List.mem_map.1 hp with ⟨q, hq, rfl⟩
    have hqx : q.2 = x := by simpa using hpx
    subst hqx
    have : q.2 ∈ (g.nodes.take max_nodes).enum.map Prod.snd :=
      List.mem_map.2 ⟨q, hq, rfl⟩
    rwa [List.enum_map_snd] at this
  · intro hx
    have : x ∈ (g.nodes.take max_nodes).enum.map Prod.snd := by
      rw [List.enum_map_snd]
      exact hx
    rcases List.mem_map.1 this with ⟨q, hq, rfl⟩
    exact ⟨(q.2, "N" ++ toString q.1), List.mem_map.2 ⟨q, hq, rfl⟩, by simp⟩

theorem mermaidEdgeStep_of_not_valid (node_ids : List (String × String))
    (acc : List String × List (String × String)) (e : String × String)
    (h : ¬((idOf node_ids e.1).isSome = true ∧
      (idOf node_ids e.2).isSome = true)) :
    mermaidEdgeStep node_ids acc e = acc := by
  unfold mermaidEdgeStep
  rcases h1 : idOf node_ids e.1 with _ | i1
  · rfl
  · rcases h2 : idOf node_ids e.2 with _ | i2
    · rfl
    · exact absurd ⟨by rw [h1]; rfl, by rw [h2]; rfl⟩ h

theorem mermaidEdgeStep_valid_mem (node_ids : List (String × String))
    (acc : List String × List (String × String)) (e : String × String)
    (i1 i2 : String) (h1 : idOf node_ids e.1 = some i1)
    (h2 : idOf node_ids e.2 = some i2) (hm : e ∈ acc.2) :
    mermaidEdgeStep node_ids acc e = acc := by
  unfold mermaidEdgeStep
  rw [h1, h2]
  simp [hm]

theorem mermaidEdgeStep_valid_new (node_ids : List (String × String))
    (acc : List String × List (String × String)) (e : String × String)
    (i1 i2 : String) (h1 : idOf node_ids e.1 = some i1)
    (h2 : idOf node_ids e.2 = some i2) (hm : e ∉ acc.2) :
    mermaidEdgeStep node_ids acc e =
      (acc.1 ++ ["    " ++ i1 ++ " --> " ++ i2], acc.2 ++ [e]) := by
  unfold mermaidEdgeStep
  rw [h1, h2]
  simp [hm]

theorem mermaid_fold (node_ids : List (String × String)) :
    ∀ (l : List (String × String))
      (acc : List String × List (String × String)), acc.2.Nodup →
      acc.1.length = acc.2.length →
      ((l.foldl (mermaidEdgeStep node_ids) acc).2.Nodup ∧
       (l.foldl (mermaidEdgeStep node_ids) acc).1.length =
         (l.foldl (mermaidEdgeStep node_ids) acc).2.length ∧
       (∀ p, p ∈ (l.foldl (mermaidEdgeStep node_ids) acc).2 ↔
         p ∈ acc.2 ∨ (p ∈ l ∧ (idOf node_ids p.1).isSome = true ∧
           (idOf node_ids p.2).isSome = true))) := by
  intro l
  induction l with
  | nil =>
    intro acc h1 h2
    refine ⟨h1, h2, fun p => ?_⟩
    simp
  | cons e t ih =>
    intro acc h1 h2
    rw [List.foldl_cons]
    by_cases hv : (idOf node_ids e.1).isSome = true ∧
        (idOf node_ids e.2).isSome = true
    · rcases Option.isSome_iff_exists.1 hv.1 with ⟨i1, hi1⟩
      rcases Option.isSome_iff_exists.1 hv.2 with ⟨i2, hi2⟩
      by_cases hm : e ∈ acc.2
      · rw [mermaidEdgeStep_valid_mem node_ids acc e i1 i2 hi1 hi2 hm]
        obtain ⟨ha, hb, hc⟩ := ih acc h1 h2
        refine ⟨ha, hb, fun p => ?_⟩
        rw [hc p]
        constructor
        · rintro (hp | ⟨hpt, hval⟩)
          · exact Or.inl hp
          · exact Or.inr ⟨List.mem_cons_of_mem _ hpt, hval⟩
        · rintro (hp | ⟨hpe, hval⟩)
          · exact Or.inl hp
          · rcases List.mem_cons.1 hpe with rfl | hpt
            · exact Or.inl hm
            · exact Or.inr ⟨hpt, hval⟩
      · rw [mermaidEdgeStep_valid_new node_ids acc e i1 i2 hi1 hi2 hm]
        have h1' : (acc.2 ++ [e]).Nodup := by
          rw [List.nodup_append]
          exact ⟨h1, List.nodup_singleton _,
            by simpa [List.disjoint_singleton] using hm⟩
        have h2' : (acc.1 ++ ["    " ++ i1 ++ " --> " ++ i2]).length =
            (acc.2 ++ [e]).length := by
          simp [h2]
        obtain ⟨ha, hb, hc⟩ :=
          ih (acc.1 ++ ["    " ++ i1 ++ " --> " ++ i2], acc.2 ++ [e]) h1' h2'
        refine ⟨ha, hb, fun p => ?_⟩
        rw [hc p]
        constructor
        · rintro (hp | ⟨hpt, hval⟩)
          · rcases List.mem_append.1 hp with hp' | hp'
            · exact Or.inl hp'
            · rcases List.mem_singleton.1 hp' with rfl
              exact Or.inr ⟨List.mem_cons_self _ _, hv⟩
          · exact Or.inr ⟨List.mem_cons_of_mem _ hpt, hval⟩
        · rintro (hp | ⟨hpe, hval⟩)
          · exact Or.inl (List.mem_append_left _ hp)
          · rcases List.mem_cons.1 hpe with rfl | hpt
            · exact Or.inl
                (List.mem_append_right _ (List.mem_singleton_self _))
            · exact Or.inr ⟨hpt, hval⟩
    · rw [mermaidEdgeStep_of_not_valid node_ids acc e hv]
      obtain ⟨ha, hb, hc⟩ := ih acc h1 h2
      refine ⟨ha, hb, fun p => ?_⟩
      rw [hc p]
      constructor
      · rintro (hp | ⟨hpt, hval⟩)
        · exact Or.inl hp
        · exact Or.inr ⟨List.mem_cons_of_mem _ hpt, hval⟩
      · rintro (hp | ⟨hpe, hval⟩)
        · exact Or.inl hp
        · rcases List.mem_cons.1 hpe with rfl | hpt
          · exact absurd hval hv
          · exact Or.inr ⟨hpt, hval⟩

/-- C8: the rendered diagram declares `min maxNodes (node count)` node
    entries — at most maxNodes, and exactly maxNodes when the graph has
    at least that many nodes — and its connection-line section holds one
    line per distinct (source, target) pair of the edge list whose two
    endpoints are both among the selected nodes, repeated pairs being
    deduplicated by the `added_edges` set. -/
theorem C8_mermaid_truncation (g : DependencyGraph) (max_nodes : Nat)
    (h : g.nodes.Nodup) :
    (mermaidNodeIds g max_nodes).length = min max_nodes g.nodes.length ∧
    (max_nodes ≤ g.nodes.length →
      (mermaidNodeIds g max_nodes).length = max_nodes) ∧
    (mermaidEdges (mermaidNodeIds g max_nodes) g.edges).2.Nodup ∧
    (∀ p, p ∈ (mermaidEdges (mermaidNodeIds g max_nodes) g.edges).2 ↔
      p ∈ g.edges ∧ p.1 ∈ g.nodes.take max_nodes ∧
        p.2 ∈ g.nodes.take max_nodes) ∧
    (mermaidEdges (mermaidNodeIds g max_nodes) g.edges).1.length =
      (mermaidEdges (mermaidNodeIds g max_nodes) g.edges).2.length := by
  unfold mermaidEdges
  obtain ⟨ha, hb, hc⟩ := mermaid_fold (mermaidNodeIds g max_nodes) g.edges
    ([], []) (List.nodup_nil) rfl
  refine ⟨mermaidNodeIds_length g max_nodes, ?_, ha, fun p => ?_, hb⟩
  · intro hge
    rw [mermaidNodeIds_length]
    omega
  · rw [hc p]
    simp only [List.not_mem_nil, false_or, idOf_isSome]

/-- Witness for C8: the theorem applied to a five-node graph truncated
    to two nodes. -/
theorem C8_mermaid_truncation_witness :
    (mermaidNodeIds
      ⟨["A", "B", "C", "D", "E"],
        [("A", "B"), ("A", "C"), ("C", "A"), ("A", "B")], []⟩ 2).length = 2 :=
  (C8_mermaid_truncation
    ⟨["A", "B", "C", "D", "E"],
      [("A", "B"), ("A", "C"), ("C", "A"), ("A", "B")], []⟩ 2
    (by decide)).2.1 (by decide)

end Cartographer
